import Mathlib

/-!
Verification of the blockchain anchoring subsystem of the repository
(`backend/app/api/blockchain.py` and `backend/app/models/blockchain.py`).

The Python code obtains digests with `hashlib.sha256(s.encode()).hexdigest()`.
That digest is external library code, so it is modelled as an arbitrary
function `H : String → String` passed to every Merkle definition; all
theorems below are proved for every `H`, in particular for the real SHA-256
hex digest.
-/

set_option maxHeartbeats 1000000

namespace LawChain

/-- One pairing pass of the loop body in `compute_merkle_root`
(`for i in range(0, len(hashes), 2): ... sha256(hashes[i] + hashes[i+1])`).
The Python code only runs this on even-length levels (an odd-length level
would raise `IndexError` at `hashes[i + 1]`); that unreachable case is
modelled by dropping the trailing element. -/
def pairHashLevel (H : String → String) : List String → List String
  | a :: b :: rest => H (a ++ b) :: pairHashLevel H rest
  | _ => []

/-- Padding applied to the input level of `compute_merkle_root`
(`if len(hashes) % 2 == 1: hashes = hashes + [hashes[-1]]`); note it also
fires on a one-element input.  `getLastD` is only evaluated on non-empty
lists (an odd length is at least 1). -/
def padOddAny (l : List String) : List String :=
  if l.length % 2 = 1 then l ++ [l.getLastD ""] else l

/-- Padding applied to the levels built inside the loop
(`if len(next_level) > 1 and len(next_level) % 2 == 1: ...`). -/
def padOddGt1 (l : List String) : List String :=
  if 1 < l.length ∧ l.length % 2 = 1 then l ++ [l.getLastD ""] else l

/-- The `while len(hashes) > 1` loop of `compute_merkle_root`, with explicit
fuel so that the definition is structural; `fuel = hashes.length` is always
enough because every iteration strictly shrinks the level.  Returns the
final one-node level together with the list of levels appended to the tree
by the loop. -/
def merkleLoop (H : String → String) : Nat → List String → List String × List (List String)
  | 0, hashes => (hashes, [])
  | fuel + 1, hashes =>
    if 1 < hashes.length then
      let next := padOddGt1 (pairHashLevel H hashes)
      let r := merkleLoop H fuel next
      (r.1, next :: r.2)
    else (hashes, [])

/-- Python `compute_merkle_root(hashes)` (`blockchain.py`, lines 104-131):
returns `(root, tree)` where `tree` is the retained list of levels. -/
def compute_merkle_root (H : String → String) (hashes : List String) :
    String × List (List String) :=
  if hashes = [] then ("", [])
  else
    let hs := padOddAny hashes
    let r := merkleLoop H hs.length hs
    (r.1.headD "", hs :: r.2)

/-- One `{"hash": ..., "position": ...}` entry of a Merkle proof. -/
structure ProofStep where
  hash : String
  position : String
deriving DecidableEq, Repr

/-- Python `hash_value not in tree[0]` followed by `tree[0].index(hash_value)`:
the index of the first occurrence, `none` when absent. -/
def indexOfFirst (hash_value : String) : List String → Option Nat
  | [] => none
  | h :: t => if h = hash_value then some 0 else (indexOfFirst hash_value t).map (· + 1)

/-- The `for level in tree[:-1]` loop of `get_merkle_proof`: at each level
the sibling index is `index + 1` ("right") for an even index and `index - 1`
("left") for an odd one; an entry is appended only when the sibling index is
in range, and the index is halved for the next level. -/
def proofSteps : Nat → List (List String) → List ProofStep
  | _, [] => []
  | index, level :: rest =>
    let sib := if index % 2 = 0 then index + 1 else index - 1
    let pos := if index % 2 = 0 then "right" else "left"
    (if sib < level.length then [{ hash := level.getD sib "", position := pos }] else [])
      ++ proofSteps (index / 2) rest

/-- Python `get_merkle_proof(hash_value, tree)` (`blockchain.py`, lines 134-159). -/
def get_merkle_proof (hash_value : String) (tree : List (List String)) : List ProofStep :=
  match tree with
  | [] => []
  | level0 :: _ =>
    match indexOfFirst hash_value level0 with
    | none => []
    | some index => proofSteps index tree.dropLast

/-- Modelled from the spec: the proof-verification recomputation rule of
spec section 4.2 — `acc = leaf_hash`; for each `(sibling, position)` in the
proof, `acc = SHA256(acc || sibling)` if the position is "right", else
`SHA256(sibling || acc)`. -/
def spec_recompute_root (H : String → String) (leaf : String) (proof : List ProofStep) : String :=
  proof.foldl (fun acc s => if s.position = "right" then H (acc ++ s.hash) else H (s.hash ++ acc)) leaf

/-- A concrete stand-in digest used to instantiate the abstract hash in
counterexamples and witnesses; the claim theorems themselves are proved for
every digest function. -/
def exH (s : String) : String := "#" ++ s

theorem pairHashLevel_length (H : String → String) :
    ∀ l : List String, (pairHashLevel H l).length = l.length / 2
  | [] => by simp [pairHashLevel]
  | [a] => by simp [pairHashLevel]
  | a :: b :: rest => by
      simp only [pairHashLevel, List.length_cons, pairHashLevel_length H rest]
      omega

theorem pairHashLevel_getD (H : String → String) :
    ∀ (l : List String) (j : Nat), 2 * j + 1 < l.length →
      (pairHashLevel H l).getD j "" = H (l.getD (2 * j) "" ++ l.getD (2 * j + 1) "")
  | [], j, h => by simp at h
  | [a], j, h => by simp only [List.length_cons, List.length_nil] at h; omega
  | a :: b :: rest, 0, _ => by simp [pairHashLevel]
  | a :: b :: rest, j + 1, h => by
      have h' : 2 * j + 1 < rest.length := by
        simp only [List.length_cons] at h; omega
      have e1 : 2 * (j + 1) = (2 * j + 1) + 1 := by omega
      simp only [pairHashLevel, List.getD_cons_succ, e1]
      exact pairHashLevel_getD H rest j h'

theorem padOddGt1_length (l : List String) :
    (padOddGt1 l).length = if 1 < l.length ∧ l.length % 2 = 1 then l.length + 1 else l.length := by
  unfold padOddGt1
  split <;> simp

theorem padOddGt1_even (l : List String) (h : 1 < (padOddGt1 l).length) :
    (padOddGt1 l).length % 2 = 0 := by
  rw [padOddGt1_length] at h ⊢
  by_cases hc : 1 < l.length ∧ l.length % 2 = 1 <;> simp [hc] at h ⊢ <;> omega

theorem padOddGt1_getD (l : List String) (j : Nat) (h : j < l.length) (d : String) :
    (padOddGt1 l).getD j d = l.getD j d := by
  unfold padOddGt1
  split
  · exact List.getD_append _ _ _ _ h
  · rfl

theorem padOddGt1_length_ge (l : List String) : l.length ≤ (padOddGt1 l).length := by
  rw [padOddGt1_length]; split <;> omega

theorem next_length_lt (H : String → String) (l : List String) (h1 : 1 < l.length) :
    (padOddGt1 (pairHashLevel H l)).length < l.length := by
  rw [padOddGt1_length, pairHashLevel_length]
  split <;> omega

theorem padOddAny_even (l : List String) (h : l ≠ []) : (padOddAny l).length % 2 = 0 := by
  have hl : 0 < l.length := List.length_pos.mpr h
  unfold padOddAny
  split <;> rename_i hc
  · simp only [List.length_append, List.length_cons, List.length_nil]
    omega
  · omega

theorem mem_padOddAny (a : String) (l : List String) (h : a ∈ l) : a ∈ padOddAny l := by
  unfold padOddAny
  split
  · exact List.mem_append_left _ h
  · exact h

theorem indexOfFirst_isSome (a : String) :
    ∀ l : List String, a ∈ l → ∃ i, indexOfFirst a l = some i := by
  intro l hm
  induction l with
  | nil => simp at hm
  | cons h t ih =>
    by_cases he : h = a
    · exact ⟨0, by simp [indexOfFirst, he]⟩
    · have : a ∈ t := by
        rcases List.mem_cons.mp hm with h1 | h1
        · exact absurd h1.symm he
        · exact h1
      obtain ⟨i, hi⟩ := ih this
      exact ⟨i + 1, by simp [indexOfFirst, he, hi]⟩

theorem indexOfFirst_spec (a : String) :
    ∀ (l : List String) (i : Nat), indexOfFirst a l = some i →
      i < l.length ∧ l.getD i "" = a := by
  intro l
  induction l with
  | nil => intro i hi; simp [indexOfFirst] at hi
  | cons h t ih =>
    intro i hi
    by_cases he : h = a
    · simp [indexOfFirst, he] at hi
      subst hi
      simpa using he
    · simp [indexOfFirst, he] at hi
      obtain ⟨j, hj, hij⟩ := hi
      obtain ⟨hlt, hgd⟩ := ih j hj
      subst hij
      constructor
      · simpa using Nat.succ_lt_succ hlt
      · simpa [List.getD_cons_succ] using hgd

/-- Core round-trip invariant: starting at any in-range index `i` of the
current level, folding the proof steps extracted from the remaining levels
reconstructs the single hash in the final level of the loop. -/
theorem merkle_path (H : String → String) :
    ∀ (fuel : Nat) (cur : List String) (i : Nat),
      cur.length ≤ fuel → (1 < cur.length → cur.length % 2 = 0) → i < cur.length →
      spec_recompute_root H (cur.getD i "")
          (proofSteps i ((cur :: (merkleLoop H fuel cur).2).dropLast))
        = (merkleLoop H fuel cur).1.headD "" := by
  intro fuel
  induction fuel with
  | zero =>
    intro cur i hle _ hi
    exact absurd hi (by omega)
  | succ fuel ih =>
    intro cur i hle hev hi
    by_cases h1 : 1 < cur.length
    · have heven : cur.length % 2 = 0 := hev h1
      have hsib : (if i % 2 = 0 then i + 1 else i - 1) < cur.length := by
        split <;> omega
      simp only [merkleLoop, if_pos h1]
      rw [List.dropLast_cons₂]
      simp only [proofSteps, if_pos hsib]
      rw [List.singleton_append]
      simp only [spec_recompute_root, List.foldl_cons]
      rw [← spec_recompute_root]
      have hpair : i / 2 < (pairHashLevel H cur).length := by
        rw [pairHashLevel_length]; omega
      have hnext : i / 2 < (padOddGt1 (pairHashLevel H cur)).length :=
        Nat.lt_of_lt_of_le hpair (padOddGt1_length_ge _)
      have hstep :
          (if (if i % 2 = 0 then "right" else "left") = "right" then
            H (cur.getD i "" ++ cur.getD (if i % 2 = 0 then i + 1 else i - 1) "")
          else H (cur.getD (if i % 2 = 0 then i + 1 else i - 1) "" ++ cur.getD i ""))
            = (padOddGt1 (pairHashLevel H cur)).getD (i / 2) "" := by
        rw [padOddGt1_getD _ _ hpair, pairHashLevel_getD H cur (i / 2) (by omega)]
        by_cases hpar : i % 2 = 0
        · have e0 : 2 * (i / 2) = i := by omega
          have e1 : 2 * (i / 2) + 1 = i + 1 := by omega
          rw [e1, e0]
          simp [hpar]
        · have e0 : 2 * (i / 2) = i - 1 := by omega
          have e1 : 2 * (i / 2) + 1 = i := by omega
          rw [e1, e0]
          simp [hpar]
      rw [hstep]
      exact ih (padOddGt1 (pairHashLevel H cur)) (i / 2)
        (by have := next_length_lt H cur h1; omega)
        (fun hgt => padOddGt1_even _ hgt) hnext
    · have hlen : cur.length = 1 := by omega
      obtain ⟨x, hx⟩ := List.length_eq_one.mp hlen
      have hi0 : i = 0 := by omega
      subst hx hi0
      simp [merkleLoop, spec_recompute_root, proofSteps]

/-- C1: Merkle round trip — for every non-empty list of at most 100 hashes
and every leaf occurring in the list, recomputing per the spec rule
(`acc = leaf`; `acc = SHA256(acc || sibling)` when the position is "right",
else `SHA256(sibling || acc)`) from the proof returned by
`get_merkle_proof` yields exactly the root returned by
`compute_merkle_root`, for every digest function `H`. -/
theorem merkle_round_trip (H : String → String) (hashes : List String)
    (hne : hashes ≠ []) (_hlen : hashes.length ≤ 100) (leaf : String) (hmem : leaf ∈ hashes) :
    spec_recompute_root H leaf (get_merkle_proof leaf (compute_merkle_root H hashes).2)
      = (compute_merkle_root H hashes).1 := by
  have hmem' : leaf ∈ padOddAny hashes := mem_padOddAny leaf hashes hmem
  obtain ⟨i, hidx⟩ := indexOfFirst_isSome leaf (padOddAny hashes) hmem'
  obtain ⟨hlt, hgd⟩ := indexOfFirst_spec leaf (padOddAny hashes) i hidx
  simp only [compute_merkle_root, if_neg hne, get_merkle_proof, hidx]
  rw [← hgd]
  exact merkle_path H (padOddAny hashes).length (padOddAny hashes) i le_rfl
    (fun _ => padOddAny_even hashes hne) hlt

/-- Witness for C1 at a concrete input: the three-leaf list
`["a", "b", "c"]` with the stand-in digest, leaf `"c"`. -/
theorem merkle_round_trip_witness :
    (["a", "b", "c"] : List String) ≠ [] ∧
      spec_recompute_root exH "c" (get_merkle_proof "c" (compute_merkle_root exH ["a", "b", "c"]).2)
        = (compute_merkle_root exH ["a", "b", "c"]).1 :=
  ⟨by decide, merkle_round_trip exH ["a", "b", "c"] (by decide) (by decide) "c" (by decide)⟩

/-- C2 counterexample: for the single-element input `["a"]` (digest
instantiated at the concrete stand-in `exH`) the computed root is not the
leaf itself and the proof for the leaf is not empty — `compute_merkle_root`
pads `["a"]` to `["a", "a"]` before pairing, so the root is `H("aa")` and
the proof is `[("a", "right")]`. -/
theorem single_leaf_counterexample :
    (compute_merkle_root exH ["a"]).1 ≠ "a" ∧
      get_merkle_proof "a" (compute_merkle_root exH ["a"]).2 ≠ [] := by
  constructor
  · decide
  · decide

/-- C2 amended: for a single-element input `[h]` the input is padded to
`[h, h]`, so `compute_merkle_root` returns root `H(h ++ h)` with retained
tree `[[h, h], [H(h ++ h)]]`, and `get_merkle_proof` returns the
single-entry proof `[(h, "right")]` — not `h` itself with an empty proof. -/
theorem single_leaf_amended (H : String → String) (h : String) :
    compute_merkle_root H [h] = (H (h ++ h), [[h, h], [H (h ++ h)]]) ∧
      get_merkle_proof h (compute_merkle_root H [h]).2
        = [{ hash := h, position := "right" }] := by
  constructor
  · rfl
  · simp [compute_merkle_root, get_merkle_proof, indexOfFirst, proofSteps,
      padOddAny, merkleLoop, pairHashLevel, padOddGt1]

/-- Successive levels of the loop output are always built by one paired
hashing pass followed by the in-loop padding rule. -/
theorem merkleLoop_chain (H : String → String) :
    ∀ (fuel : Nat) (cur : List String) (i : Nat),
      i + 1 < (cur :: (merkleLoop H fuel cur).2).length →
      (cur :: (merkleLoop H fuel cur).2).getD (i + 1) []
        = padOddGt1 (pairHashLevel H ((cur :: (merkleLoop H fuel cur).2).getD i [])) := by
  intro fuel
  induction fuel with
  | zero =>
    intro cur i h
    simp [merkleLoop] at h
  | succ fuel ih =>
    intro cur i h
    by_cases h1 : 1 < cur.length
    · simp only [merkleLoop, if_pos h1] at h ⊢
      cases i with
      | zero => simp
      | succ j =>
        have hj : j + 1 < (padOddGt1 (pairHashLevel H cur)
            :: (merkleLoop H fuel (padOddGt1 (pairHashLevel H cur))).2).length := by
          simpa [Nat.succ_lt_succ_iff] using h
        simpa [List.getD_cons_succ] using
          ih (padOddGt1 (pairHashLevel H cur)) j hj
    · simp [merkleLoop, h1] at h

/-- C7: odd-count padding — for an input of odd length greater than 1,
level 0 of the retained tree is the input with its last element duplicated,
and every subsequent level is the paired hashing (left to right, hex-string
concatenation then digest) of the previous one, with the same
duplicate-the-last padding applied to every odd intermediate level of
length greater than 1 (that is exactly `padOddGt1 ∘ pairHashLevel H`). -/
theorem merkle_odd_padding (H : String → String) (l : List String)
    (hodd : l.length % 2 = 1) (hgt : 1 < l.length) :
    (compute_merkle_root H l).2.headD [] = l ++ [l.getLastD ""] ∧
      ∀ i, i + 1 < (compute_merkle_root H l).2.length →
        (compute_merkle_root H l).2.getD (i + 1) []
          = padOddGt1 (pairHashLevel H ((compute_merkle_root H l).2.getD i [])) := by
  have hne : l ≠ [] := by
    intro e; subst e; simp at hgt
  constructor
  · simp [compute_merkle_root, if_neg hne, padOddAny, hodd]
  · intro i hi
    simp only [compute_merkle_root, if_neg hne] at hi ⊢
    exact merkleLoop_chain H (padOddAny l).length (padOddAny l) i hi

/-- Witness for C7 at the concrete input `["a", "b", "c"]`: level 0 of the
retained tree is `["a", "b", "c", "c"]` and level 1 is built from it by the
pairing-and-padding rule. -/
theorem merkle_odd_padding_witness :
    (compute_merkle_root exH ["a", "b", "c"]).2.headD [] = ["a", "b", "c", "c"] ∧
      (compute_merkle_root exH ["a", "b", "c"]).2.getD 1 []
        = padOddGt1 (pairHashLevel exH
            ((compute_merkle_root exH ["a", "b", "c"]).2.getD 0 [])) :=
  ⟨(merkle_odd_padding exH ["a", "b", "c"] (by decide) (by decide)).1,
   (merkle_odd_padding exH ["a", "b", "c"] (by decide) (by decide)).2 0 (by decide)⟩

/-- Every non-root level produced by the loop has even length. -/
theorem merkleLoop_levels_even (H : String → String) :
    ∀ (fuel : Nat) (cur : List String), (1 < cur.length → cur.length % 2 = 0) →
      ∀ level ∈ (cur :: (merkleLoop H fuel cur).2).dropLast, level.length % 2 = 0 := by
  intro fuel
  induction fuel with
  | zero =>
    intro cur _ level hl
    simp [merkleLoop] at hl
  | succ fuel ih =>
    intro cur hev level hl
    by_cases h1 : 1 < cur.length
    · simp only [merkleLoop, if_pos h1] at hl
      rw [List.dropLast_cons₂] at hl
      rcases List.mem_cons.mp hl with h | h
      · subst h; exact hev h1
      · exact ih (padOddGt1 (pairHashLevel H cur)) (fun hgt => padOddGt1_even _ hgt) level h
    · simp [merkleLoop, h1] at hl

/-- Along the proof path the sibling index is always in range, so every
non-root level contributes exactly one proof entry. -/
theorem merkleLoop_proof_length (H : String → String) :
    ∀ (fuel : Nat) (cur : List String) (i : Nat),
      (1 < cur.length → cur.length % 2 = 0) → i < cur.length →
      (proofSteps i ((cur :: (merkleLoop H fuel cur).2).dropLast)).length
        = ((cur :: (merkleLoop H fuel cur).2).dropLast).length := by
  intro fuel
  induction fuel with
  | zero =>
    intro cur i _ _
    simp [merkleLoop, proofSteps]
  | succ fuel ih =>
    intro cur i hev hi
    by_cases h1 : 1 < cur.length
    · have heven : cur.length % 2 = 0 := hev h1
      have hsib : (if i % 2 = 0 then i + 1 else i - 1) < cur.length := by
        split <;> omega
      have hpair : i / 2 < (pairHashLevel H cur).length := by
        rw [pairHashLevel_length]; omega
      have hnext : i / 2 < (padOddGt1 (pairHashLevel H cur)).length :=
        Nat.lt_of_lt_of_le hpair (padOddGt1_length_ge _)
      simp only [merkleLoop, if_pos h1]
      rw [List.dropLast_cons₂]
      simp only [proofSteps, if_pos hsib, List.singleton_append, List.length_cons]
      rw [ih (padOddGt1 (pairHashLevel H cur)) (i / 2)
        (fun hgt => padOddGt1_even _ hgt) hnext]
    · have : ¬ 1 < (cur :: (merkleLoop H (fuel + 1) cur).2).length := by
        simp [merkleLoop, h1]
      simp [merkleLoop, h1, proofSteps]

/-- C9 (implicit): in the tree returned by `compute_merkle_root` on a
non-empty input, every level except the final root level has even length,
and for every leaf present in level 0 the proof returned by
`get_merkle_proof` has exactly one entry per non-root level (the sibling
index is always in range). -/
theorem merkle_even_levels_and_proof_length (H : String → String)
    (hashes : List String) (hne : hashes ≠ []) :
    (∀ level ∈ (compute_merkle_root H hashes).2.dropLast, level.length % 2 = 0) ∧
      ∀ leaf ∈ (compute_merkle_root H hashes).2.headD [],
        (get_merkle_proof leaf (compute_merkle_root H hashes).2).length
          = (compute_merkle_root H hashes).2.length - 1 := by
  constructor
  · intro level hl
    simp only [compute_merkle_root, if_neg hne] at hl
    exact merkleLoop_levels_even H (padOddAny hashes).length (padOddAny hashes)
      (fun _ => padOddAny_even hashes hne) level hl
  · intro leaf hmem
    simp only [compute_merkle_root, if_neg hne, List.headD_cons] at hmem
    obtain ⟨i, hidx⟩ := indexOfFirst_isSome leaf (padOddAny hashes) hmem
    obtain ⟨hlt, _⟩ := indexOfFirst_spec leaf (padOddAny hashes) i hidx
    simp only [compute_merkle_root, if_neg hne, get_merkle_proof, hidx]
    rw [merkleLoop_proof_length H (padOddAny hashes).length (padOddAny hashes) i
      (fun _ => padOddAny_even hashes hne) hlt]
    simp [List.length_dropLast]

/-- Witness for C9 at the concrete input `["a", "b", "c"]` with leaf `"b"`:
the padded leaf level `["a", "b", "c", "c"]` is even and the proof has one
entry per non-root level. -/
theorem merkle_even_levels_witness :
    (["a", "b", "c", "c"] : List String).length % 2 = 0 ∧
      (get_merkle_proof "b" (compute_merkle_root exH ["a", "b", "c"]).2).length
        = (compute_merkle_root exH ["a", "b", "c"]).2.length - 1 :=
  ⟨(merkle_even_levels_and_proof_length exH ["a", "b", "c"] (by decide)).1
      ["a", "b", "c", "c"] (by decide),
   (merkle_even_levels_and_proof_length exH ["a", "b", "c"] (by decide)).2 "b" (by decide)⟩

/-- The `AnchorStatus` enum of `models/blockchain.py`. -/
inductive AnchorStatus
  | pending
  | queued
  | processing
  | confirmed
  | failed
deriving DecidableEq, Repr

/-- The `BlockchainRecord` row of `models/blockchain.py` (the fields the
claims touch; UUIDs and datetimes are modelled as `Nat`).  In the declared
schema `contract_id` is `nullable=False`; it is nevertheless given type
`Option Nat` here because the batch endpoint constructs rows with
`contract_id=None` — claim C10 is about exactly that mismatch. -/
structure BlockchainRecord where
  id : Nat
  contract_id : Option Nat
  document_id : Option Nat := none
  document_hash : String
  salt : Option String := none
  merkle_root : Option String := none
  merkle_proof : Option (List ProofStep) := none
  batch_id : Option String := none
  tx_hash : Option String := none
  block_number : Option Int := none
  network : String := "xphere"
  status : AnchorStatus := .pending
  error_message : Option String := none
  confirmed_at : Option Nat := none
deriving DecidableEq, Repr

/-- The error SQLAlchemy's `Result.scalar_one_or_none` raises when the
query matches more than one row. -/
inductive DbError
  | multipleResultsFound
deriving DecidableEq, Repr

/-- HTTP errors raised by the endpoints (`HTTPException` status codes). -/
inductive HttpError
  | notFound404
  | badRequest400
  | forbidden403
deriving DecidableEq, Repr

/-- SQLAlchemy `Result.scalar_one_or_none()`: `none` for no row, the row
when unique, and a `MultipleResultsFound` error for two or more rows. -/
def scalar_one_or_none {α : Type} : List α → Except DbError (Option α)
  | [] => .ok none
  | [r] => .ok (some r)
  | _ => .error .multipleResultsFound

/-- The row filter of the `/verify` query (`blockchain.py`, lines 333-338):
`document_hash == request.document_hash` and `status == CONFIRMED`. -/
def confirmedMatch (dh : String) (r : BlockchainRecord) : Bool :=
  r.document_hash == dh && r.status == AnchorStatus.confirmed

/-- Response model of the `/verify` endpoint. -/
structure VerifyResponse where
  verified : Bool
  document_hash : String
  anchor_id : Option Nat
  tx_hash : Option String
  block_number : Option Int
  anchored_at : Option Nat
  network : String
  message : String
deriving DecidableEq, Repr

/-- The negative `/verify` response (`blockchain.py`, lines 341-351). -/
def negativeVerifyResponse (dh : String) : VerifyResponse :=
  { verified := false, document_hash := dh, anchor_id := none, tx_hash := none,
    block_number := none, anchored_at := none, network := "xphere",
    message := "Document hash not found in blockchain records" }

/-- The positive `/verify` response (`blockchain.py`, lines 353-362). -/
def positiveVerifyResponse (dh : String) (r : BlockchainRecord) : VerifyResponse :=
  { verified := true, document_hash := dh, anchor_id := some r.id, tx_hash := r.tx_hash,
    block_number := r.block_number, anchored_at := r.confirmed_at, network := r.network,
    message := "Document verified on Xphere blockchain" }

/-- Python `verify_document` (`blockchain.py`, lines 322-362): the store is
the list of `BlockchainRecord` rows; the select-then-`scalar_one_or_none`
is modelled by filtering the store and applying `scalar_one_or_none`. -/
def verify_document (store : List BlockchainRecord) (dh : String) :
    Except DbError VerifyResponse :=
  match scalar_one_or_none (store.filter (confirmedMatch dh)) with
  | .error e => .error e
  | .ok none => .ok (negativeVerifyResponse dh)
  | .ok (some r) => .ok (positiveVerifyResponse dh r)

/-- C3 counterexample: with two CONFIRMED records sharing the hash "d", the
public verify operation raises `MultipleResultsFound` (SQLAlchemy
`scalar_one_or_none` with two matching rows) instead of returning the first
matching record — and instead of any non-error negative result. -/
theorem verify_multiple_counterexample :
    verify_document
        [{ id := 1, contract_id := some 1, document_hash := "d",
           status := AnchorStatus.confirmed, tx_hash := some "0xa",
           block_number := some 10, confirmed_at := some 100 },
         { id := 2, contract_id := some 2, document_hash := "d",
           status := AnchorStatus.confirmed, tx_hash := some "0xb",
           block_number := some 11, confirmed_at := some 200 }]
        "d"
      = .error DbError.multipleResultsFound := by
  rfl

/-- C3 amended: the public verify operation returns the unique stored
CONFIRMED record with the given hash (verified=true with that record's
tx/block/confirmed_at fields) when exactly one matches, a negative result
(verified=false) when none matches, and raises `MultipleResultsFound` when
more than one CONFIRMED record carries the hash. -/
theorem verify_lookup_amended (store : List BlockchainRecord) (dh : String) :
    (store.filter (confirmedMatch dh) = [] →
        verify_document store dh = .ok (negativeVerifyResponse dh)) ∧
      (∀ r, store.filter (confirmedMatch dh) = [r] →
        verify_document store dh = .ok (positiveVerifyResponse dh r)) ∧
      (2 ≤ (store.filter (confirmedMatch dh)).length →
        verify_document store dh = .error DbError.multipleResultsFound) := by
  refine ⟨fun h => ?_, fun r h => ?_, fun h => ?_⟩
  · simp [verify_document, h, scalar_one_or_none]
  · simp [verify_document, h, scalar_one_or_none]
  · rcases hf : store.filter (confirmedMatch dh) with _ | ⟨a, _ | ⟨b, t⟩⟩
    · rw [hf] at h; simp at h
    · rw [hf] at h; simp at h
    · simp [verify_document, hf, scalar_one_or_none]

/-- Witness for the amended C3 at a concrete store holding exactly one
CONFIRMED record with the hash "d". -/
theorem verify_lookup_amended_witness :
    verify_document
        [{ id := 1, contract_id := some 1, document_hash := "d",
           status := AnchorStatus.confirmed, tx_hash := some "0xa",
           block_number := some 10, confirmed_at := some 100 }]
        "d"
      = .ok (positiveVerifyResponse "d"
          { id := 1, contract_id := some 1, document_hash := "d",
            status := AnchorStatus.confirmed, tx_hash := some "0xa",
            block_number := some 10, confirmed_at := some 100 }) :=
  (verify_lookup_amended
      [{ id := 1, contract_id := some 1, document_hash := "d",
         status := AnchorStatus.confirmed, tx_hash := some "0xa",
         block_number := some 10, confirmed_at := some 100 }]
      "d").2.1
    { id := 1, contract_id := some 1, document_hash := "d",
      status := AnchorStatus.confirmed, tx_hash := some "0xa",
      block_number := some 10, confirmed_at := some 100 }
    (by rfl)

/-- The dedupe filter of the `/anchor` endpoint (`blockchain.py`, lines
208-214): same `contract_id`, same `document_hash`, and
`status.in_([PENDING, CONFIRMED])`. -/
def pendingOrConfirmedMatch (cid : Nat) (dh : String) (r : BlockchainRecord) : Bool :=
  r.contract_id == some cid && r.document_hash == dh &&
    (r.status == AnchorStatus.pending || r.status == AnchorStatus.confirmed)

/-- Python `anchor_document` (`blockchain.py`, lines 175-267), restricted
to its store effect: the contract-existence and ownership checks (lines
189-205) precede this logic and never touch the store, and the background
`process_anchor` task is a no-op, so both are omitted; `uuid4` record ids
are modelled by a counter and the random salt is passed in.  Returns the
response id (or the database error), the new store, and the new counter; an
exception leaves the store unchanged. -/
def anchor_document (store : List BlockchainRecord) (next_id : Nat)
    (contract_id : Nat) (document_id : Option Nat) (document_hash : String)
    (salt : String) : Except DbError Nat × List BlockchainRecord × Nat :=
  match scalar_one_or_none (store.filter (pendingOrConfirmedMatch contract_id document_hash)) with
  | .error e => (.error e, store, next_id)
  | .ok (some existing) => (.ok existing.id, store, next_id)
  | .ok none =>
    (.ok next_id,
     store ++ [{ id := next_id, contract_id := some contract_id,
                 document_id := document_id, document_hash := document_hash,
                 salt := some salt, network := "xphere",
                 status := AnchorStatus.pending }],
     next_id + 1)

/-- Arguments of one `/anchor` call. -/
structure AnchorCall where
  contract_id : Nat
  document_id : Option Nat
  document_hash : String
  salt : String

/-- The store effect of one `/anchor` call. -/
def anchorStep (st : List BlockchainRecord × Nat) (c : AnchorCall) :
    List BlockchainRecord × Nat :=
  (anchor_document st.1 st.2 c.contract_id c.document_id c.document_hash c.salt).2

/-- The store obtained from the empty store by a sequence of `/anchor`
calls. -/
def run_anchor_calls (calls : List AnchorCall) : List BlockchainRecord × Nat :=
  calls.foldl anchorStep ([], 0)

/-- At most one PENDING-or-CONFIRMED record per `(contract_id,
document_hash)` pair. -/
def pairUnique (store : List BlockchainRecord) : Prop :=
  ∀ cid dh, (store.filter (pendingOrConfirmedMatch cid dh)).length ≤ 1

theorem anchorStep_pairUnique (st : List BlockchainRecord × Nat) (c : AnchorCall)
    (h : pairUnique st.1) : pairUnique (anchorStep st c).1 := by
  unfold anchorStep anchor_document
  rcases hf : st.1.filter (pendingOrConfirmedMatch c.contract_id c.document_hash)
    with _ | ⟨e, _ | ⟨e2, t⟩⟩
  · simp only [hf, scalar_one_or_none]
    intro cid dh
    rw [List.filter_append]
    by_cases hp : pendingOrConfirmedMatch cid dh
        { id := st.2, contract_id := some c.contract_id,
          document_id := c.document_id, document_hash := c.document_hash,
          salt := some c.salt, network := "xphere",
          status := AnchorStatus.pending } = true
    · have hcid : cid = c.contract_id ∧ dh = c.document_hash := by
        simp [pendingOrConfirmedMatch] at hp
        exact ⟨hp.1.symm, hp.2.symm⟩
      obtain ⟨h1, h2⟩ := hcid
      subst h1 h2
      simp [hf, hp]
    · simp only [List.filter_cons, hp]
      simp only [Bool.false_eq_true, if_false, List.filter_nil, List.append_nil]
      exact h cid dh
  · simp only [hf, scalar_one_or_none]
    exact h
  · simp only [hf, scalar_one_or_none]
    exact h

theorem run_pairUnique (calls : List AnchorCall) :
    ∀ st : List BlockchainRecord × Nat, pairUnique st.1 →
      pairUnique (calls.foldl anchorStep st).1 := by
  induction calls with
  | nil => intro st h; simpa using h
  | cons c cs ih =>
    intro st h
    exact ih (anchorStep st c) (anchorStep_pairUnique st c h)

/-- C4: idempotent anchor creation — when exactly one PENDING-or-CONFIRMED
record with the given `(contract_id, document_hash)` pair exists, a further
`anchor_document` call returns that record's id and leaves the store (and
id counter) unchanged; and after any sequence of `/anchor` calls starting
from the empty store, at most one PENDING-or-CONFIRMED record exists per
pair. -/
theorem anchor_idempotent (calls : List AnchorCall) (cid : Nat) (dh : String) :
    ((run_anchor_calls calls).1.filter (pendingOrConfirmedMatch cid dh)).length ≤ 1 ∧
      ∀ (store : List BlockchainRecord) (nid : Nat) (did : Option Nat) (salt : String)
        (e : BlockchainRecord),
        store.filter (pendingOrConfirmedMatch cid dh) = [e] →
        anchor_document store nid cid did dh salt = (.ok e.id, store, nid) := by
  constructor
  · exact run_pairUnique calls ([], 0) (fun _ _ => by simp) cid dh
  · intro store nid did salt e hf
    simp [anchor_document, hf, scalar_one_or_none]

/-- Witness for C4: two identical `/anchor` calls leave at most one
matching record, and a call on a store already holding the pending record
with id 3 returns id 3 without touching the store. -/
theorem anchor_idempotent_witness :
    ((run_anchor_calls [⟨1, none, "d", "s1"⟩, ⟨1, none, "d", "s2"⟩]).1.filter
        (pendingOrConfirmedMatch 1 "d")).length ≤ 1 ∧
      anchor_document
          [{ id := 3, contract_id := some 1, document_hash := "d",
             status := AnchorStatus.pending }] 7 1 none "d" "s"
        = (.ok 3,
           [{ id := 3, contract_id := some 1, document_hash := "d",
              status := AnchorStatus.pending }], 7) :=
  ⟨(anchor_idempotent [⟨1, none, "d", "s1"⟩, ⟨1, none, "d", "s2"⟩] 1 "d").1,
   (anchor_idempotent [⟨1, none, "d", "s1"⟩, ⟨1, none, "d", "s2"⟩] 1 "d").2
     [{ id := 3, contract_id := some 1, document_hash := "d",
        status := AnchorStatus.pending }] 7 none "s"
     { id := 3, contract_id := some 1, document_hash := "d",
       status := AnchorStatus.pending }
     (by rfl)⟩

/-- Response model of the `/batch-anchor` endpoint. -/
structure BatchAnchorResponse where
  batch_id : String
  merkle_root : String
  total_documents : Nat
  status : String
  tx_hash : Option String
deriving DecidableEq, Repr

/-- Python `batch_anchor_documents` (`blockchain.py`, lines 365-424):
rejects fewer than 2 or more than 100 hashes, computes the Merkle root and
tree, and creates one record per hash with `contract_id=None`, the shared
`merkle_root`, the per-leaf proof, the shared `batch_id`, and
`status=AnchorStatus.QUEUED`.  The timestamp-plus-token batch id is passed
in, `uuid4` ids are modelled by a counter, and the no-op background
`process_batch_anchor` task is omitted.  Returns the created records and
the response. -/
def batch_anchor_documents (H : String → String) (hashes : List String)
    (batch_id : String) (next_id : Nat) :
    Except HttpError (List BlockchainRecord × BatchAnchorResponse) :=
  if hashes.length < 2 then .error .badRequest400
  else if 100 < hashes.length then .error .badRequest400
  else
    let mr := compute_merkle_root H hashes
    .ok ((List.range hashes.length).map (fun i =>
           { id := next_id + i, contract_id := none,
             document_hash := hashes.getD i "",
             merkle_root := some mr.1,
             merkle_proof := some (get_merkle_proof (hashes.getD i "") mr.2),
             batch_id := some batch_id,
             network := "xphere",
             status := AnchorStatus.queued }),
         { batch_id := batch_id, merkle_root := mr.1,
           total_documents := hashes.length, status := "queued", tx_hash := none })

/-- C6 counterexample: the batch anchor operation on `["a", "b"]` creates
both of its records with status QUEUED, which is not PENDING — so it is not
the case that every record is created with status PENDING. -/
theorem batch_initial_status_counterexample :
    (batch_anchor_documents exH ["a", "b"] "B" 0).map
        (fun p => p.1.map (fun r => r.status))
      = .ok [AnchorStatus.queued, AnchorStatus.queued]
    ∧ AnchorStatus.queued ≠ AnchorStatus.pending := by
  exact ⟨rfl, by decide⟩

/-- C6 amended: every record created by the single-document anchor
operation has status PENDING, while every record created by the batch
anchor operation has status QUEUED (not PENDING). -/
theorem initial_status_amended :
    (∀ (store : List BlockchainRecord) (nid cid : Nat) (did : Option Nat)
        (dh salt : String) (r : BlockchainRecord),
        r ∈ (anchor_document store nid cid did dh salt).2.1 →
        r ∈ store ∨ r.status = AnchorStatus.pending) ∧
      ∀ (H : String → String) (hashes : List String) (bid : String) (nid : Nat)
        (recs : List BlockchainRecord) (resp : BatchAnchorResponse),
        batch_anchor_documents H hashes bid nid = .ok (recs, resp) →
        ∀ r ∈ recs, r.status = AnchorStatus.queued := by
  constructor
  · intro store nid cid did dh salt r hr
    unfold anchor_document at hr
    rcases hf : store.filter (pendingOrConfirmedMatch cid dh) with _ | ⟨e, _ | ⟨e2, t⟩⟩ <;>
      simp only [hf, scalar_one_or_none] at hr
    · rcases List.mem_append.mp hr with h | h
      · exact Or.inl h
      · simp at h
        subst h
        exact Or.inr rfl
    · exact Or.inl hr
    · exact Or.inl hr
  · intro H hashes bid nid recs resp hok r hr
    unfold batch_anchor_documents at hok
    split at hok
    · exact absurd hok (by simp)
    · split at hok
      · exact absurd hok (by simp)
      · simp only [Except.ok.injEq, Prod.mk.injEq] at hok
        obtain ⟨hrecs, _⟩ := hok
        subst hrecs
        obtain ⟨i, _, hfi⟩ := List.mem_map.mp hr
        subst hfi
        rfl

/-- Witness for the amended C6 at concrete calls: the record created by a
single-document anchor call on the empty store is PENDING (it is not a
member of the empty prior store), and the first record created by the batch
call on `["a", "b"]` is QUEUED. -/
theorem initial_status_amended_witness :
    (({ id := 0, contract_id := some 1, document_hash := "d", salt := some "s",
        status := AnchorStatus.pending } : BlockchainRecord)
        ∈ ([] : List BlockchainRecord) ∨
      ({ id := 0, contract_id := some 1, document_hash := "d", salt := some "s",
         status := AnchorStatus.pending } : BlockchainRecord).status
        = AnchorStatus.pending) ∧
      ({ id := 0, contract_id := none, document_hash := "a",
         merkle_root := some (exH "ab"),
         merkle_proof := some [{ hash := "b", position := "right" }],
         batch_id := some "B", status := AnchorStatus.queued } : BlockchainRecord).status
        = AnchorStatus.queued :=
  ⟨initial_status_amended.1 [] 0 1 none "d" "s"
     { id := 0, contract_id := some 1, document_hash := "d", salt := some "s",
       status := AnchorStatus.pending }
     (by decide),
   initial_status_amended.2 exH ["a", "b"] "B" 0
     [{ id := 0, contract_id := none, document_hash := "a",
        merkle_root := some (exH "ab"),
        merkle_proof := some [{ hash := "b", position := "right" }],
        batch_id := some "B", status := AnchorStatus.queued },
      { id := 1, contract_id := none, document_hash := "b",
        merkle_root := some (exH "ab"),
        merkle_proof := some [{ hash := "a", position := "left" }],
        batch_id := some "B", status := AnchorStatus.queued }]
     { batch_id := "B", merkle_root := exH "ab", total_documents := 2,
       status := "queued", tx_hash := none }
     (by rfl)
     { id := 0, contract_id := none, document_hash := "a",
       merkle_root := some (exH "ab"),
       merkle_proof := some [{ hash := "b", position := "right" }],
       batch_id := some "B", status := AnchorStatus.queued }
     (by decide)⟩

/-- The `nullable=False` declaration of the `contract_id` column of
`BlockchainRecord` (`models/blockchain.py`, line 23). -/
def contract_id_nullable : Bool := false

/-- Whether a record satisfies the declared `contract_id` column
constraint: a non-nullable column requires a present value. -/
def satisfiesContractIdColumn (r : BlockchainRecord) : Bool :=
  contract_id_nullable || r.contract_id.isSome

/-- C10 (implicit): every record constructed by the batch anchor operation
has `contract_id = None` and non-null `merkle_root`, `merkle_proof` and
`batch_id`, while the schema declares `contract_id` non-nullable — so no
batch-created record satisfies the declared constraint. -/
theorem batch_records_violate_schema (H : String → String) (hashes : List String)
    (bid : String) (nid : Nat) (recs : List BlockchainRecord)
    (resp : BatchAnchorResponse)
    (hok : batch_anchor_documents H hashes bid nid = .ok (recs, resp)) :
    ∀ r ∈ recs, r.contract_id = none ∧ r.merkle_root.isSome = true ∧
      r.merkle_proof.isSome = true ∧ r.batch_id.isSome = true ∧
      satisfiesContractIdColumn r = false := by
  intro r hr
  unfold batch_anchor_documents at hok
  split at hok
  · exact absurd hok (by simp)
  · split at hok
    · exact absurd hok (by simp)
    · simp only [Except.ok.injEq, Prod.mk.injEq] at hok
      obtain ⟨hrecs, _⟩ := hok
      subst hrecs
      obtain ⟨i, _, hfi⟩ := List.mem_map.mp hr
      subst hfi
      exact ⟨rfl, rfl, rfl, rfl, rfl⟩

/-- Witness for C10 at the concrete batch call on `["a", "b"]`: its first
created record has no contract id, carries Merkle data and a batch id, and
fails the declared non-nullable `contract_id` constraint. -/
theorem batch_records_violate_schema_witness :
    ({ id := 0, contract_id := none, document_hash := "a",
       merkle_root := some (exH "ab"),
       merkle_proof := some [{ hash := "b", position := "right" }],
       batch_id := some "B", status := AnchorStatus.queued } : BlockchainRecord).contract_id
        = none ∧
      ({ id := 0, contract_id := none, document_hash := "a",
         merkle_root := some (exH "ab"),
         merkle_proof := some [{ hash := "b", position := "right" }],
         batch_id := some "B",
         status := AnchorStatus.queued } : BlockchainRecord).merkle_root.isSome = true ∧
      ({ id := 0, contract_id := none, document_hash := "a",
         merkle_root := some (exH "ab"),
         merkle_proof := some [{ hash := "b", position := "right" }],
         batch_id := some "B",
         status := AnchorStatus.queued } : BlockchainRecord).merkle_proof.isSome = true ∧
      ({ id := 0, contract_id := none, document_hash := "a",
         merkle_root := some (exH "ab"),
         merkle_proof := some [{ hash := "b", position := "right" }],
         batch_id := some "B",
         status := AnchorStatus.queued } : BlockchainRecord).batch_id.isSome = true ∧
      satisfiesContractIdColumn
        { id := 0, contract_id := none, document_hash := "a",
          merkle_root := some (exH "ab"),
          merkle_proof := some [{ hash := "b", position := "right" }],
          batch_id := some "B", status := AnchorStatus.queued } = false :=
  batch_records_violate_schema exH ["a", "b"] "B" 0
    [{ id := 0, contract_id := none, document_hash := "a",
       merkle_root := some (exH "ab"),
       merkle_proof := some [{ hash := "b", position := "right" }],
       batch_id := some "B", status := AnchorStatus.queued },
     { id := 1, contract_id := none, document_hash := "b",
       merkle_root := some (exH "ab"),
       merkle_proof := some [{ hash := "a", position := "left" }],
       batch_id := some "B", status := AnchorStatus.queued }]
    { batch_id := "B", merkle_root := exH "ab", total_documents := 2,
      status := "queued", tx_hash := none }
    (by rfl)
    { id := 0, contract_id := none, document_hash := "a",
      merkle_root := some (exH "ab"),
      merkle_proof := some [{ hash := "b", position := "right" }],
      batch_id := some "B", status := AnchorStatus.queued }
    (by decide)

/-- Decimal digits of a natural number, most significant first, with fuel
(`fuel = n + 1` always suffices); models Python's decimal rendering of an
`int` inside an f-string. -/
def decDigitsAux : Nat → Nat → List Char
  | 0, _ => []
  | fuel + 1, n =>
    if n < 10 then [Nat.digitChar n]
    else decDigitsAux fuel (n / 10) ++ [Nat.digitChar (n % 10)]

/-- Decimal rendering of a natural number (Python `str(n)` / `{n}` in an
f-string). -/
def decRepr (n : Nat) : String := ⟨decDigitsAux (n + 1) n⟩

/-- Decimal value of a digit string; left inverse of the rendering, used to
prove the rendering injective. -/
def digitsVal (l : List Char) : Nat :=
  l.foldl (fun acc c => acc * 10 + (c.toNat - 48)) 0

theorem digitsVal_append_digit (l : List Char) (c : Char) :
    digitsVal (l ++ [c]) = digitsVal l * 10 + (c.toNat - 48) := by
  simp [digitsVal, List.foldl_append]

theorem digitsVal_decDigitsAux :
    ∀ (fuel n : Nat), n < fuel → digitsVal (decDigitsAux fuel n) = n := by
  intro fuel
  induction fuel with
  | zero => intro n hn; omega
  | succ fuel ih =>
    intro n hn
    by_cases h10 : n < 10
    · simp only [decDigitsAux, if_pos h10]
      interval_cases n <;> rfl
    · simp only [decDigitsAux, if_neg h10]
      rw [digitsVal_append_digit]
      rw [ih (n / 10) (by omega)]
      have hm : n % 10 < 10 := Nat.mod_lt _ (by omega)
      have hv : (Nat.digitChar (n % 10)).toNat - 48 = n % 10 := by
        set m := n % 10 with hmdef
        interval_cases m <;> rfl
      rw [hv]
      omega

theorem digitsVal_replicate_zero (k : Nat) (l : List Char) :
    digitsVal (List.replicate k '0' ++ l) = digitsVal l := by
  induction k with
  | zero => simp
  | succ k ih =>
    rw [List.replicate_succ, List.cons_append]
    simpa [digitsVal] using ih

/-- Python `f"{n:06d}"`: `n` rendered in decimal and zero-padded on the
left to at least six characters. -/
def format06 (n : Nat) : String :=
  ⟨List.replicate (6 - (decRepr n).length) '0' ++ (decRepr n).data⟩

theorem format06_injective (a b : Nat) (h : format06 a = format06 b) : a = b := by
  have hd : (format06 a).data = (format06 b).data := congrArg String.data h
  simp only [format06] at hd
  have := congrArg digitsVal hd
  rw [digitsVal_replicate_zero, digitsVal_replicate_zero] at this
  have ha : digitsVal (decRepr a).data = a := digitsVal_decDigitsAux (a + 1) a (by omega)
  have hb : digitsVal (decRepr b).data = b := digitsVal_decDigitsAux (b + 1) b (by omega)
  rw [ha, hb] at this
  exact this

/-- The `Certificate` row of `models/blockchain.py` (fields the claims
touch). -/
structure Certificate where
  id : Nat
  blockchain_record_id : Nat
  certificate_number : String
  pdf_url : Option String := none
  qr_code_url : Option String := none
  verification_url : Option String := none
deriving DecidableEq, Repr

/-- The certificates table together with the id counter modelling `uuid4`
primary keys. -/
structure CertState where
  certs : List Certificate
  next_cert_id : Nat
deriving DecidableEq, Repr

/-- The `LIKE "SC-{year}-%"` pattern of `generate_certificate_number`. -/
def certNumberTag (year : Nat) : String := "SC-" ++ decRepr year ++ "-"

/-- Whether a certificate row matches `LIKE "SC-{year}-%"`. -/
def likeYearTag (year : Nat) (c : Certificate) : Bool :=
  (certNumberTag year).data.isPrefixOf c.certificate_number.data

/-- The rendered certificate number `f"SC-{year}-{seq:06d}"`. -/
def mkCertNumber (year seq : Nat) : String := certNumberTag year ++ format06 seq

/-- Python `generate_certificate_number` (`blockchain.py`, lines 162-170):
counts the certificates whose number matches `LIKE "SC-{year}-%"` and
renders `f"SC-{year}-{count + 1:06d}"`; the current year is passed in. -/
def generate_certificate_number (certs : List Certificate) (year : Nat) : String :=
  mkCertNumber year ((certs.filter (likeYearTag year)).length + 1)

/-- The certificate-creation branch of `get_certificate` (`blockchain.py`,
lines 469-481): generate a number, insert the new `Certificate` row linked
to the record, and return the number. -/
def issue_certificate (st : CertState) (record_id year : Nat) : String × CertState :=
  let num := generate_certificate_number st.certs year
  (num,
   { certs := st.certs ++
       [{ id := st.next_cert_id, blockchain_record_id := record_id,
          certificate_number := num,
          verification_url :=
            some ("https://trendy.storydot.kr/law/verify/" ++ decRepr record_id) }],
     next_cert_id := st.next_cert_id + 1 })

/-- The ownership check of `get_certificate` (`blockchain.py`, line 463):
denied when the record's contract exists and belongs to another user. -/
def authDenied (contract_user_id : Option Nat) (current_user : Nat) : Bool :=
  match contract_user_id with
  | some u => u != current_user
  | none => false

/-- Python `get_certificate` (`blockchain.py`, lines 433-495), given the
anchor record (the 404 branch for a missing record precedes this logic),
the owning contract's user (if any), the current user, and the current
year.  Returns the response's `certificate_number` (or the HTTP error)
together with the resulting certificates table; an error leaves the table
unchanged. -/
def get_certificate (current_user : Nat) (contract_user_id : Option Nat)
    (record : BlockchainRecord) (st : CertState) (year : Nat) :
    Except HttpError String × CertState :=
  if record.status ≠ AnchorStatus.confirmed then (.error .badRequest400, st)
  else if authDenied contract_user_id current_user then (.error .forbidden403, st)
  else
    match st.certs.find? (fun c => c.blockchain_record_id == record.id) with
    | some cert => (.ok cert.certificate_number, st)
    | none =>
      let r := issue_certificate st record.id year
      (.ok r.1, r.2)

theorem find?_append_none {α : Type} (p : α → Bool) (l₁ l₂ : List α)
    (h : l₁.find? p = none) : (l₁ ++ l₂).find? p = l₂.find? p := by
  rw [List.find?_append, h, Option.none_or]

/-- C5: certificate precondition and stability — on a record whose status
is not CONFIRMED, `get_certificate` fails with the 400 precondition error
and creates no certificate; on a CONFIRMED record (with the ownership
check passing) it succeeds, and an immediately repeated call returns the
same certificate number with the certificates table unchanged, so the
certificate is created at most once. -/
theorem certificate_precondition_and_stability (cu : Nat) (cuid : Option Nat)
    (record : BlockchainRecord) (st : CertState) (year : Nat) :
    (record.status ≠ AnchorStatus.confirmed →
        get_certificate cu cuid record st year = (.error .badRequest400, st)) ∧
      (record.status = AnchorStatus.confirmed → authDenied cuid cu = false →
        (∃ num st2, get_certificate cu cuid record st year = (.ok num, st2)) ∧
          ∀ num st2, get_certificate cu cuid record st year = (.ok num, st2) →
            get_certificate cu cuid record st2 year = (.ok num, st2)) := by
  constructor
  · intro hne
    simp [get_certificate, hne]
  · intro hc hauth
    rcases hfind : st.certs.find? (fun c => c.blockchain_record_id == record.id)
      with _ | cert
    · constructor
      · refine ⟨(issue_certificate st record.id year).1,
          (issue_certificate st record.id year).2, ?_⟩
        simp [get_certificate, hc, hauth, hfind]
      · intro num st2 hcall
        simp only [get_certificate, hc, ne_eq, not_true_eq_false, if_false, hauth,
          Bool.false_eq_true, hfind] at hcall
        obtain ⟨hnum, hst2⟩ := Prod.mk.injEq .. ▸ hcall
        simp only [Except.ok.injEq] at hnum
        have hfind2 : st2.certs.find? (fun c => c.blockchain_record_id == record.id)
            = some { id := st.next_cert_id, blockchain_record_id := record.id,
                     certificate_number := generate_certificate_number st.certs year,
                     verification_url :=
                       some ("https://trendy.storydot.kr/law/verify/" ++ decRepr record.id) } := by
          rw [← hst2]
          show ((issue_certificate st record.id year).2.certs.find? _) = _
          simp only [issue_certificate]
          rw [find?_append_none _ _ _ hfind]
          simp
        simp [get_certificate, hc, hauth, hfind, hfind2, ← hnum, ← hst2, issue_certificate]
    · constructor
      · exact ⟨cert.certificate_number, st, by simp [get_certificate, hc, hauth, hfind]⟩
      · intro num st2 hcall
        simp only [get_certificate, hc, ne_eq, not_true_eq_false, if_false, hauth,
          Bool.false_eq_true, hfind] at hcall
        obtain ⟨hnum, hst2⟩ := Prod.mk.injEq .. ▸ hcall
        simp only [Except.ok.injEq] at hnum
        simp [get_certificate, hc, hauth, ← hst2, hfind, hnum]

/-- Witness for C5 at concrete inputs: on the empty certificates table a
PENDING record is rejected with the 400 error, and for a CONFIRMED record
the call that created certificate SC-2024-000001 is stable — repeating it
returns the same number and leaves the table unchanged. -/
theorem certificate_precondition_witness :
    (get_certificate 0 none
        { id := 5, contract_id := some 1, document_hash := "d",
          status := AnchorStatus.pending } ⟨[], 0⟩ 2024
      = (.error .badRequest400, (⟨[], 0⟩ : CertState))) ∧
      get_certificate 0 none
          { id := 5, contract_id := some 1, document_hash := "d",
            status := AnchorStatus.confirmed }
          ⟨[{ id := 0, blockchain_record_id := 5,
              certificate_number := "SC-2024-000001",
              verification_url := some "https://trendy.storydot.kr/law/verify/5" }], 1⟩
          2024
        = (.ok "SC-2024-000001",
           (⟨[{ id := 0, blockchain_record_id := 5,
                certificate_number := "SC-2024-000001",
                verification_url := some "https://trendy.storydot.kr/law/verify/5" }],
             1⟩ : CertState)) :=
  ⟨(certificate_precondition_and_stability 0 none
      { id := 5, contract_id := some 1, document_hash := "d",
        status := AnchorStatus.pending } ⟨[], 0⟩ 2024).1 (by decide),
   ((certificate_precondition_and_stability 0 none
      { id := 5, contract_id := some 1, document_hash := "d",
        status := AnchorStatus.confirmed } ⟨[], 0⟩ 2024).2 rfl rfl).2
     "SC-2024-000001"
     ⟨[{ id := 0, blockchain_record_id := 5,
         certificate_number := "SC-2024-000001",
         verification_url := some "https://trendy.storydot.kr/law/verify/5" }], 1⟩
     (by rfl)⟩

theorem isPrefixOf_append_self {α : Type} [BEq α] [LawfulBEq α] :
    ∀ (l t : List α), l.isPrefixOf (l ++ t) = true
  | [], _ => by simp
  | a :: as, t => by
      simp only [List.cons_append, List.isPrefixOf_cons₂, BEq.refl, Bool.true_and]
      exact isPrefixOf_append_self as t

theorem likeYearTag_of_number (year seq : Nat) (c : Certificate)
    (h : c.certificate_number = mkCertNumber year seq) : likeYearTag year c = true := by
  simp only [likeYearTag, h, mkCertNumber, String.data_append]
  exact isPrefixOf_append_self _ _

theorem mkCertNumber_seq_injective (year a b : Nat)
    (h : mkCertNumber year a = mkCertNumber year b) : a = b := by
  apply format06_injective
  have hd := congrArg String.data h
  simp only [mkCertNumber, String.data_append] at hd
  have hdata := List.append_cancel_left hd
  have : (⟨(format06 a).data⟩ : String) = ⟨(format06 b).data⟩ := congrArg String.mk hdata
  exact this

/-- Each certificate issuance increments the per-year count by exactly
one. -/
theorem yearCount_issue (st : CertState) (rid year : Nat) :
    ((issue_certificate st rid year).2.certs.filter (likeYearTag year)).length
      = (st.certs.filter (likeYearTag year)).length + 1 := by
  simp only [issue_certificate, List.filter_append, List.length_append]
  rw [List.filter_cons]
  rw [likeYearTag_of_number year ((st.certs.filter (likeYearTag year)).length + 1) _ rfl]
  simp

/-- The certificate numbers produced by `k` sequential issuances (each one
the creation branch of `get_certificate` on a fresh confirmed anchor). -/
def issue_numbers (year : Nat) : CertState → Nat → Nat → List String
  | _, _, 0 => []
  | st, rid, k + 1 =>
    (issue_certificate st rid year).1 ::
      issue_numbers year (issue_certificate st rid year).2 (rid + 1) k

theorem issue_numbers_formula (year : Nat) :
    ∀ (k : Nat) (st : CertState) (rid : Nat),
      issue_numbers year st rid k
        = (List.range k).map
            (fun j => mkCertNumber year
              ((st.certs.filter (likeYearTag year)).length + j + 1)) := by
  intro k
  induction k with
  | zero => intro st rid; rfl
  | succ k ih =>
    intro st rid
    rw [issue_numbers, ih, List.range_succ_eq_map]
    simp only [yearCount_issue, List.map_cons, List.map_map]
    refine congrArg₂ List.cons rfl ?_
    apply List.map_congr_left
    intro j _
    simp only [Function.comp_apply]
    congr 1
    omega

theorem issue_numbers_getD (year k i : Nat) (st : CertState) (rid : Nat) (hik : i < k) :
    (issue_numbers year st rid k).getD i ""
      = mkCertNumber year ((st.certs.filter (likeYearTag year)).length + i + 1) := by
  rw [issue_numbers_formula]
  rw [List.getD_eq_getElem?_getD, List.getElem?_map, List.getElem?_range hik]
  rfl

/-- C8: certificate numbering — a single issuance renders
`"SC-" ++ year ++ "-"` followed by the six-digit zero-padded value of one
plus the number of certificates already carrying that year's tag; under
sequential issuance the `j`-th number is therefore the initial count plus
`j + 1`, and the numbers issued within the year are pairwise distinct
(monotonically increasing sequence values). -/
theorem certificate_numbering (st : CertState) (rid year k : Nat) :
    (∀ (st2 : CertState) (rid2 : Nat),
        (issue_certificate st2 rid2 year).1
          = mkCertNumber year ((st2.certs.filter (likeYearTag year)).length + 1)) ∧
      issue_numbers year st rid k
        = (List.range k).map
            (fun j => mkCertNumber year
              ((st.certs.filter (likeYearTag year)).length + j + 1)) ∧
      ∀ i j, i < j → j < k →
        (issue_numbers year st rid k).getD i ""
          ≠ (issue_numbers year st rid k).getD j "" := by
  refine ⟨fun st2 rid2 => rfl, issue_numbers_formula year k st rid, ?_⟩
  intro i j hij hjk
  rw [issue_numbers_getD year k i st rid (by omega),
    issue_numbers_getD year k j st rid hjk]
  intro heq
  have := mkCertNumber_seq_injective year _ _ heq
  omega

/-- Witness for C8: two sequential issuances in 2024 from the empty table
produce distinct certificate numbers. -/
theorem certificate_numbering_witness :
    (issue_numbers 2024 ⟨[], 0⟩ 0 2).getD 0 ""
      ≠ (issue_numbers 2024 ⟨[], 0⟩ 0 2).getD 1 "" :=
  (certificate_numbering ⟨[], 0⟩ 0 2024 2).2.2 0 1 (by decide) (by decide)

end LawChain
